import Mathlib

/-!
Shallow embedding of the SpacePicker core logic (search/filter/sort engine,
selection state, debounce/throttle, validators, retry helper) of the
upload-service UI repository, together with theorems settling the frozen
claims about it.

Conventions of the embedding:
* TypeScript `Space` objects become a Lean structure; the `did()` method
  becomes the field `did`.
* Optional TS fields become `Option`; JS truthiness of a string value
  (`undefined`/`""` falsy) is made explicit where the code relies on it.
* `Array.prototype.sort` (mandated stable) with a comparator `c` is modelled
  as `List.insertionSort` with the relation `c a b ≤ 0`; for a comparator
  that is a total preorder (all comparators here are), every stable sort
  produces this same list.
* `String.prototype.localeCompare` is modelled as code-point lexicographic
  comparison, which agrees with it on lowercase ASCII alphanumeric strings
  (all comparator keys here are lowercased first).
* Timers (`setTimeout`/`clearTimeout`) are modelled by an explicit
  event-trace semantics over call lists sorted by timestamp.
-/

/-- Access type of a space: the TS string union `'public' | 'private'`. -/
inductive AccessType where
  | publicAccess
  | privateAccess
deriving DecidableEq, Repr

/-- The `access` attribute of a space (`{ type: 'public' | 'private' }`). -/
structure SpaceAccess where
  type : AccessType
deriving DecidableEq, Repr

/-- A space record, as consumed by the picker: `did()` accessor, optional
`name`, optional `access`. -/
structure Space where
  did : String
  name : Option String
  access : Option SpaceAccess
deriving DecidableEq, Repr

/-- The access-type filter value `'public' | 'private' | 'all'`. -/
inductive AccessFilter where
  | publicOnly
  | privateOnly
  | all
deriving DecidableEq, Repr

/-- The sort key `'name' | 'created' | 'usage'`. -/
inductive SortKey where
  | name
  | created
  | usage
deriving DecidableEq, Repr

/-- The sort direction `'asc' | 'desc'`. -/
inductive SortDir where
  | asc
  | desc
deriving DecidableEq, Repr

/-- Embedding of `SpaceFilterOptions` from spaceTypes: all four fields optional in TS. -/
structure SpaceFilterOptions where
  query : Option String
  accessType : Option AccessFilter
  sortBy : Option SortKey
  sortOrder : Option SortDir
deriving DecidableEq, Repr

/-- JS truthiness for an optional string: `undefined` and `""` are falsy. -/
def jsStrTruthy : Option String → Bool
  | none => false
  | some s => s ≠ ""

/-- The value of `o || d` for an optional string `o`: falls back to `d` when
`o` is `undefined` or `""`. -/
def jsStrOr (o : Option String) (d : String) : String :=
  match o with
  | none => d
  | some s => if s = "" then d else s

/-- JS `String.prototype.trim`: whitespace removed from both ends (the
character-list form keeps the definition kernel-computable). -/
def jsTrim (s : String) : String :=
  ⟨((s.toList.dropWhile Char.isWhitespace).reverse.dropWhile
    Char.isWhitespace).reverse⟩

/-- JS `String.prototype.toLowerCase` (ASCII case mapping). -/
def jsToLower (s : String) : String :=
  ⟨s.toList.map Char.toLower⟩

/-- JS `String.prototype.toUpperCase` (ASCII case mapping). -/
def jsToUpper (s : String) : String :=
  ⟨s.toList.map Char.toUpper⟩

/-- JS `String.prototype.split` with a single-character separator. -/
def jsSplitOn (s : String) (sep : Char) : List String :=
  (s.toList.splitOn sep).map fun part => (⟨part⟩ : String)

/-- Embedding of `str.includes(sub)` on JS strings. -/
def jsIncludes (s sub : String) : Bool :=
  decide (sub.toList <:+: s.toList)

/-- Lexicographic code-point comparison of strings, the model of
`localeCompare` (sign only); exact for lowercase ASCII alphanumerics. -/
def lexCmp : List Char → List Char → Int
  | [], [] => 0
  | [], _ :: _ => -1
  | _ :: _, [] => 1
  | a :: as, b :: bs => if a < b then -1 else if b < a then 1 else lexCmp as bs

/-- Model of `a.localeCompare(b)` (sign only). -/
def localeCompare (a b : String) : Int :=
  lexCmp a.toList b.toList

/-- Embedding of `shortenDID(did)` from spaceHelpers with the default `length = 8`:
returns the did unchanged when its length is at most 19, otherwise the
first 8 characters, `"..."`, and the last 8 characters. -/
def shortenDID (did : String) : String :=
  if did.length ≤ 8 * 2 + 3 then did
  else ⟨did.toList.take 8⟩ ++ "..." ++ ⟨did.toList.drop (did.length - 8)⟩

/-- The query predicate of `filterSpaces`/`useSpaceSearch`:
`space.name?.toLowerCase().includes(query) || space.did().toLowerCase().includes(query)`
where `query` is already lowercased. -/
def matchesQuery (space : Space) (query : String) : Bool :=
  (match space.name with
   | some n => jsIncludes (jsToLower n) query
   | none => false)
  || jsIncludes (jsToLower space.did) query

/-- The access-type predicate: `space.access?.type === accessType`. -/
def matchesAccess (space : Space) (accessType : AccessFilter) : Bool :=
  match space.access, accessType with
  | some a, AccessFilter.publicOnly => a.type = AccessType.publicAccess
  | some a, AccessFilter.privateOnly => a.type = AccessType.privateAccess
  | _, _ => false

/-- The `sortBy = 'name'` comparator key of `filterSpaces`:
`(a.name || shortenDID(a.did())).toLowerCase()`. -/
def filterSpacesNameKey (s : Space) : String :=
  jsToLower (jsStrOr s.name (shortenDID s.did))

/-- The comparator of `filterSpaces` (value of `comparison` after the
`switch`, then negated for `'desc'`). -/
def filterSpacesCmp (sortBy : SortKey) (sortOrder : Option SortDir)
    (a b : Space) : Int :=
  let comparison : Int :=
    match sortBy with
    | SortKey.name => localeCompare (filterSpacesNameKey a) (filterSpacesNameKey b)
    | SortKey.created => 0
    | SortKey.usage => 0
  if sortOrder = some SortDir.desc then -comparison else comparison

/-- Embedding of `filterSpaces(spaces, filters)` from spaceHelpers: copy, optional query
filter, optional access-type filter, optional stable sort. -/
def filterSpaces (spaces : List Space) (filters : SpaceFilterOptions) :
    List Space :=
  let filtered := spaces
  let filtered :=
    if jsStrTruthy filters.query then
      let query := jsToLower (filters.query.getD "")
      filtered.filter fun space => matchesQuery space query
    else filtered
  let filtered :=
    if filters.accessType ≠ none ∧ filters.accessType ≠ some AccessFilter.all then
      filtered.filter fun space =>
        matchesAccess space (filters.accessType.getD AccessFilter.all)
    else filtered
  match filters.sortBy with
  | some sortBy =>
      filtered.insertionSort fun a b =>
        filterSpacesCmp sortBy filters.sortOrder a b ≤ 0
  | none => filtered

/-- The `sortBy = 'name'` comparator key used inline in `useSpaceSearch`:
`(a.name || a.did()).toLowerCase()` — note no `shortenDID`, unlike
`filterSpaces`. -/
def useSpaceSearchNameKey (s : Space) : String :=
  jsToLower (jsStrOr s.name s.did)

/-- The comparator of the inline sort in `useSpaceSearch`. -/
def useSpaceSearchCmp (sortBy : SortKey) (sortOrder : SortDir)
    (a b : Space) : Int :=
  let comparison : Int :=
    match sortBy with
    | SortKey.name => localeCompare (useSpaceSearchNameKey a) (useSpaceSearchNameKey b)
    | SortKey.created => 0
    | SortKey.usage => 0
  if sortOrder = SortDir.desc then -comparison else comparison

/-- The `filteredSpaces` computation inside `useSpaceSearch`: in the hook the
filter fields `accessType`, `sortBy`, `sortOrder` are non-optional and the
sort always runs. -/
def useSpaceSearchFiltered (spaces : List Space) (searchQuery : String)
    (accessType : AccessFilter) (sortBy : SortKey) (sortOrder : SortDir) :
    List Space :=
  let filtered := spaces
  let filtered :=
    if searchQuery ≠ "" then
      let query := jsToLower searchQuery
      filtered.filter fun space => matchesQuery space query
    else filtered
  let filtered :=
    if accessType ≠ AccessFilter.all then
      filtered.filter fun space => matchesAccess space accessType
    else filtered
  filtered.insertionSort fun a b => useSpaceSearchCmp sortBy sortOrder a b ≤ 0

/-- Embedding of `selectSpace` from `useSpaceSelection` (the `setSelectedSpaces` updater):
if some selected space has the same did, remove every entry with that did,
otherwise append the space at the end. -/
def selectSpace (prev : List Space) (space : Space) : List Space :=
  if prev.any fun s => s.did = space.did then
    prev.filter fun s => s.did ≠ space.did
  else prev ++ [space]

/-- Embedding of `handleSpaceSelect` from `SpacePickerContext`, viewed through its effect
on the selected-spaces list: with `allowMultiSelect` it toggles via
`selectSpace`; without it only the external `onSpaceSelect` callback fires
and the selection is left untouched. -/
def handleSpaceSelect (allowMultiSelect : Bool) (sel : List Space)
    (space : Space) : List Space :=
  if allowMultiSelect then selectSpace sel space else sel

/-- A selection operation of the picker: toggle a space through
`handleSpaceSelect`, `selectAllSpaces` (which replaces the selection with
the given list, `[...spaces]`), or `clearSelection`. -/
inductive SelOp where
  | toggle (space : Space)
  | selectAll (spaces : List Space)
  | clear
deriving DecidableEq, Repr

/-- One step of selection state under a picker mode. -/
def selStep (allowMultiSelect : Bool) (sel : List Space) : SelOp → List Space
  | SelOp.toggle space => handleSpaceSelect allowMultiSelect sel space
  | SelOp.selectAll spaces => spaces
  | SelOp.clear => []

/-- Run a sequence of selection operations from a starting selection. -/
def runSelOps (allowMultiSelect : Bool) (sel : List Space)
    (ops : List SelOp) : List Space :=
  ops.foldl (selStep allowMultiSelect) sel

/-- The field-to-message error map returned by the validators, restricted to
the fields the validators of validationHelpers actually set; `none` means
the field has no error. -/
structure ValidationErrors where
  name : Option String
  accessType : Option String
  template : Option String
  description : Option String
  grantee : Option String
  capabilities : Option String
  expiration : Option String
  files : Option String
  path : Option String
deriving DecidableEq, Repr

/-- The empty error map `{}`. -/
def ValidationErrors.empty : ValidationErrors :=
  ⟨none, none, none, none, none, none, none, none, none⟩

/-- Character class `[a-zA-Z0-9\s\-_\.]` of `SPACE_NAME_RULES.pattern`
(JS `\s` modelled by ASCII whitespace, the only whitespace that occurs in
the claims). -/
def spaceNameCharOk (c : Char) : Bool :=
  c.isAlphanum || c.isWhitespace || c = '-' || c = '_' || c = '.'

/-- Test of `SPACE_NAME_RULES.pattern = /^[a-zA-Z0-9\s\-_\.]+$/`. -/
def spaceNamePatternTest (s : String) : Bool :=
  s ≠ "" && s.toList.all spaceNameCharOk

/-- Embedding of `SPACE_NAME_RULES.reservedNames`. -/
def spaceNameReserved : List String :=
  ["admin", "root", "system", "api", "www", "mail", "ftp"]

/-- Embedding of `validateSpaceName` from validationHelpers. -/
def validateSpaceName (name : String) : ValidationErrors :=
  if jsTrim name = "" then
    { ValidationErrors.empty with name := some "Space name is required" }
  else
    let trimmedName := jsTrim name
    let errors := ValidationErrors.empty
    let errors :=
      if trimmedName.length < 1 then
        { errors with name := some "Space name must be at least 1 character long" }
      else errors
    let errors :=
      if trimmedName.length > 100 then
        { errors with name := some "Space name must be no more than 100 characters long" }
      else errors
    let errors :=
      if ¬ spaceNamePatternTest trimmedName then
        { errors with name := some "Space name can only contain letters, numbers, spaces, hyphens, underscores, and dots" }
      else errors
    let errors :=
      if spaceNameReserved.contains (jsToLower trimmedName) then
        { errors with name := some "This space name is reserved and cannot be used" }
      else errors
    errors

/-- Embedding of `SpaceCreatorFormData`: `accessType` is kept optional to reflect the
validator's defensive `!formData.accessType` runtime check. -/
structure SpaceCreatorFormData where
  name : String
  accessType : Option AccessType
  template : String
  description : Option String
deriving DecidableEq, Repr

/-- Embedding of `validateSpaceCreatorForm` from validationHelpers: name errors merged by
`Object.assign`, then access type, template and description checks (every
value of the `'public' | 'private'` union passes the membership test). -/
def validateSpaceCreatorForm (formData : SpaceCreatorFormData) :
    ValidationErrors :=
  let errors := ValidationErrors.empty
  let nameErrors := validateSpaceName formData.name
  let errors := { errors with name := nameErrors.name }
  let errors :=
    if formData.accessType = none then
      { errors with accessType := some "Please select a valid access type" }
    else errors
  let errors :=
    if jsTrim formData.template = "" then
      { errors with template := some "Please select a template" }
    else errors
  let errors :=
    match formData.description with
    | some d =>
        if d ≠ "" ∧ d.length > 500 then
          { errors with description := some "Description must be no more than 500 characters long" }
        else errors
    | none => errors
  errors

/-- Embedding of `isValidEmail` from spaceHelpers, by the exact characterization of its
regex `^[^\s@]+@[^\s@]+\.[^\s@]+$`: no whitespace anywhere, exactly one
`@`, a nonempty local part, and a dot in the domain with at least one
character on each side. -/
def isValidEmail (email : String) : Bool :=
  !email.toList.any Char.isWhitespace &&
  match email.toList.splitOn '@' with
  | [loc, dom] => loc ≠ [] && ((dom.drop 1).dropLast.contains '.')
  | _ => false

/-- Embedding of `isValidDID` from spaceHelpers, by the exact characterization of its
regex `^did:[a-z0-9]+:[a-zA-Z0-9._-]+$`: exactly two colons splitting the
string into `did`, a nonempty `[a-z0-9]+` method and a nonempty
`[a-zA-Z0-9._-]+` value. -/
def isValidDID (did : String) : Bool :=
  match did.toList.splitOn ':' with
  | [d, m, v] =>
      d = "did".toList &&
      (m ≠ [] && m.all fun c => c.isLower || c.isDigit) &&
      (v ≠ [] && v.all fun c => c.isAlphanum || c = '.' || c = '_' || c = '-')
  | _ => false

/-- Embedding of `isValidEmailOrDID` from spaceHelpers. -/
def isValidEmailOrDID (value : String) : Bool :=
  isValidEmail value || isValidDID value

/-- Embedding of `CAPABILITY_RULES.validCapabilities`. -/
def validCapabilities : List String :=
  ["store/add", "store/remove", "upload/add", "upload/list",
   "space/info", "space/delete", "space/rename", "space/share", "*"]

/-- Embedding of `PermissionFormData`; the optional `expiration` `Date` is embedded as a
millisecond timestamp. -/
structure PermissionFormData where
  grantee : String
  capabilities : List String
  expiration : Option Nat
deriving DecidableEq, Repr

/-- Milliseconds of the 365-day year used to model
`oneYearFromNow.setFullYear(getFullYear() + 1)`; the calendar-exact value
differs only in leap years, which no claim depends on. -/
def msPerYear : Nat := 365 * 24 * 60 * 60 * 1000

/-- Embedding of `validatePermissionForm` from validationHelpers. It reads the current
clock (`new Date()`) for the expiration checks, so the embedding takes the
current time `now` (a millisecond timestamp) as an explicit argument. -/
def validatePermissionForm (formData : PermissionFormData) (now : Nat) :
    ValidationErrors :=
  let errors := ValidationErrors.empty
  let errors :=
    if jsTrim formData.grantee = "" then
      { errors with grantee := some "Grantee is required" }
    else
      let trimmedGrantee := jsTrim formData.grantee
      let errors :=
        if trimmedGrantee.length < 1 then
          { errors with grantee := some "Grantee must be at least 1 character long" }
        else errors
      let errors :=
        if trimmedGrantee.length > 255 then
          { errors with grantee := some "Grantee must be no more than 255 characters long" }
        else errors
      let errors :=
        if ¬ isValidEmailOrDID trimmedGrantee then
          { errors with grantee := some "Grantee must be a valid email address or DID" }
        else errors
      errors
  let errors :=
    if formData.capabilities = [] then
      { errors with capabilities := some "At least one capability must be selected" }
    else
      let invalidCapabilities :=
        formData.capabilities.filter fun capability =>
          ¬ validCapabilities.contains capability
      if invalidCapabilities ≠ [] then
        { errors with
            capabilities :=
              some ("Invalid capabilities: " ++ String.intercalate ", " invalidCapabilities) }
      else errors
  let errors :=
    match formData.expiration with
    | some expiration =>
        let errors :=
          if expiration ≤ now then
            { errors with expiration := some "Expiration date must be in the future" }
          else errors
        let oneYearFromNow := now + msPerYear
        if expiration > oneYearFromNow then
          { errors with expiration := some "Expiration date cannot be more than 1 year in the future" }
        else errors
    | none => errors
  errors

/-- A `File` of a browser upload batch: only `name` and `size` are read by
the validator. -/
structure UploadFile where
  name : String
  size : Nat
deriving DecidableEq, Repr

/-- Decimal rendering of `parseFloat(x.toFixed(2))`: the value scaled to
hundredths (rounded half up, approximating binary-float `toFixed`), with
trailing zeros of the fraction dropped. -/
def renderHundredths (scaled : Nat) : String :=
  let q := scaled / 100
  let r := scaled % 100
  if r = 0 then toString q
  else if r % 10 = 0 then toString q ++ "." ++ toString (r / 10)
  else if r < 10 then toString q ++ ".0" ++ toString r
  else toString q ++ "." ++ toString r

/-- Embedding of `formatFileSize` from validationHelpers:
`Math.floor(Math.log(bytes)/Math.log(1024))` is the integer base-1024
logarithm, and the two-decimal float display is modelled by rational
rounding. -/
def formatFileSize (bytes : Nat) : String :=
  if bytes = 0 then "0 Bytes"
  else
    let sizes := ["Bytes", "KB", "MB", "GB", "TB"]
    let i := Nat.log 1024 bytes
    let scaled := (bytes * 200 / 1024 ^ i + 1) / 2
    renderHundredths scaled ++ " " ++ sizes.getD i ""

/-- Embedding of `validateFileUpload` from validationHelpers. -/
def validateFileUpload (files : List UploadFile) : ValidationErrors :=
  let errors := ValidationErrors.empty
  if files = [] then
    { errors with files := some "No files selected" }
  else
    let errors :=
      if files.length > 100 then
        { errors with files := some "Cannot upload more than 100 files at once" }
      else errors
    let maxFileSize := 100 * 1024 * 1024
    let oversizedFiles := files.filter fun file => file.size > maxFileSize
    let errors :=
      if oversizedFiles ≠ [] then
        { errors with
            files :=
              some ("Files too large: " ++
                String.intercalate ", " (oversizedFiles.map fun f => f.name) ++
                ". Maximum size is " ++ formatFileSize maxFileSize) }
      else errors
    let totalSize := (files.map fun file => file.size).sum
    let maxTotalSize := 1024 * 1024 * 1024
    let errors :=
      if totalSize > maxTotalSize then
        { errors with
            files :=
              some ("Total upload size too large: " ++ formatFileSize totalSize ++
                ". Maximum total size is " ++ formatFileSize maxTotalSize) }
      else errors
    errors

/-- Reserved path-segment names of `validatePath`. -/
def pathReservedNames : List String :=
  [".", "..", "CON", "PRN", "AUX", "NUL",
   "COM1", "COM2", "COM3", "COM4", "COM5", "COM6", "COM7", "COM8", "COM9",
   "LPT1", "LPT2", "LPT3", "LPT4", "LPT5", "LPT6", "LPT7", "LPT8", "LPT9"]

/-- Embedding of `validatePath` from validationHelpers: requires a nonblank path, rejects
the substrings `..` and `~` anywhere, rejects reserved segment names
case-insensitively (first offending segment reported), and caps the length
at 260. -/
def validatePath (path : String) : ValidationErrors :=
  let errors := ValidationErrors.empty
  if jsTrim path = "" then
    { errors with path := some "Path is required" }
  else
    let errors :=
      if jsIncludes path ".." || jsIncludes path "~" then
        { errors with path := some "Invalid path: path traversal not allowed" }
      else errors
    let pathParts := (jsSplitOn path '/').filter fun part => part ≠ ""
    let errors :=
      match pathParts.find? (fun part => pathReservedNames.contains (jsToUpper part)) with
      | some part =>
          { errors with
              path :=
                some ("Invalid path: \"" ++ part ++ "\" is a reserved name") }
      | none => errors
    let errors :=
      if path.length > 260 then
        { errors with path := some "Path is too long (maximum 260 characters)" }
      else errors
    errors

/-- Trace semantics of `debounce(func, wait)` from spaceHelpers. The wrapped
function receives the chronological list of calls `(time, args)`; each call
cancels the pending timer and schedules `func` for `time + wait`; a pending
timer fires unless the next call arrives strictly before its due time (a
timer due at the instant of a call fires first). The result is the list of
`(fire time, args)` invocations of `func`. -/
def debounceRun (wait : Nat) : List (Nat × α) → List (Nat × α)
  | [] => []
  | [(t, a)] => [(t + wait, a)]
  | (t, a) :: (t2, b) :: rest =>
      if t2 < t + wait then debounceRun wait ((t2, b) :: rest)
      else (t + wait, a) :: debounceRun wait ((t2, b) :: rest)

/-- Decomposition of a chronological call list into its maximal bursts: two
consecutive calls belong to the same burst exactly when the second arrives
strictly within `wait` of the first. -/
def burstsOf (wait : Nat) : List (Nat × α) → List (List (Nat × α))
  | [] => []
  | [x] => [[x]]
  | x :: y :: rest =>
      let bs := burstsOf wait (y :: rest)
      if y.1 < x.1 + wait then (x :: bs.headD []) :: bs.tail
      else [x] :: bs

/-- Trace semantics of `throttle(func, limit)` from spaceHelpers, translated
from the `inThrottle` flag and its resetting timer: `readyAt` is the instant
the cooldown ends (`0` initially, i.e. not throttled); a call at `t ≥
readyAt` invokes `func` immediately and sets `readyAt := t + limit`; any
other call is dropped. A reset timer due at the instant of a call fires
first, so a call exactly at `readyAt` invokes. -/
def throttleRun (limit : Nat) (readyAt : Nat) : List (Nat × α) → List (Nat × α)
  | [] => []
  | (t, a) :: rest =>
      if readyAt ≤ t then (t, a) :: throttleRun limit (t + limit) rest
      else throttleRun limit readyAt rest

/-- Modelled from the spec (§4.4 Throttle): the first call invokes `fn`
immediately and opens a cooldown of `limitMs`; calls during the cooldown
are dropped entirely; the first call at or after the end of the cooldown
invokes `fn` again and restarts the cooldown. `lastFire` is the time of the
most recent invocation, `none` before the first. -/
def throttleSpec (limit : Nat) : Option Nat → List (Nat × α) → List (Nat × α)
  | _, [] => []
  | none, c :: rest => c :: throttleSpec limit (some c.1) rest
  | some lastFire, c :: rest =>
      if c.1 < lastFire + limit then throttleSpec limit (some lastFire) rest
      else c :: throttleSpec limit (some c.1) rest

/-- The retry loop of `useRetry.executeWithRetry`. The async operation is
embedded as `f : Nat → Except E A`, giving the outcome of the body at each
attempt index; `remaining = maxRetries - attempt` mirrors the loop guard
`attempt < maxRetries`. Returns the final outcome, the number of attempts
performed, and the list of backoff delays slept (`2 ^ attempt * 1000` ms). -/
def retryAux (f : Nat → Except E A) : Nat → Nat → Except E A × Nat × List Nat
  | remaining, attempt =>
    match f attempt with
    | Except.ok a => (Except.ok a, attempt + 1, [])
    | Except.error e =>
      match remaining with
      | 0 => (Except.error e, attempt + 1, [])
      | r + 1 =>
          let rest := retryAux f r (attempt + 1)
          (rest.1, rest.2.1, (2 ^ attempt * 1000) :: rest.2.2)

/-- Embedding of `executeWithRetry` with the hook's fixed `maxRetries = 3`, starting at
attempt `0`. -/
def executeWithRetry (f : Nat → Except E A) : Except E A × Nat × List Nat :=
  retryAux f 3 0

/-- A heap of JS arrays of spaces, for observing mutation: an array
reference is an index into the heap. -/
structure ArrHeap where
  arrays : List (List Space)
deriving Repr

/-- Allocate a fresh array holding `xs`; returns the new heap and the fresh
reference. -/
def ArrHeap.alloc (h : ArrHeap) (xs : List Space) : ArrHeap × Nat :=
  (⟨h.arrays ++ [xs]⟩, h.arrays.length)

/-- Read the array behind a reference. -/
def ArrHeap.read (h : ArrHeap) (r : Nat) : List Space :=
  h.arrays.getD r []

/-- Overwrite the array behind a reference in place (the effect of
`Array.prototype.sort`). -/
def ArrHeap.write (h : ArrHeap) (r : Nat) (xs : List Space) : ArrHeap :=
  ⟨h.arrays.set r xs⟩

/-- Embedding of `filterSpaces` at the level of array references, making its allocations
and in-place operations explicit: `[...spaces]` allocates a copy, each
`filter` allocates a new array, and `sort` mutates the current array in
place. Returns the heap after the call and the reference of the result. -/
def filterSpacesHeap (h : ArrHeap) (spacesRef : Nat)
    (filters : SpaceFilterOptions) : ArrHeap × Nat :=
  let (h1, r1) := h.alloc (h.read spacesRef)
  let (h2, r2) :=
    if jsStrTruthy filters.query then
      let query := jsToLower (filters.query.getD "")
      h1.alloc ((h1.read r1).filter fun space => matchesQuery space query)
    else (h1, r1)
  let (h3, r3) :=
    if filters.accessType ≠ none ∧ filters.accessType ≠ some AccessFilter.all then
      h2.alloc ((h2.read r2).filter fun space =>
        matchesAccess space (filters.accessType.getD AccessFilter.all))
    else (h2, r2)
  match filters.sortBy with
  | some sortBy =>
      (h3.write r3 ((h3.read r3).insertionSort fun a b =>
        filterSpacesCmp sortBy filters.sortOrder a b ≤ 0), r3)
  | none => (h3, r3)

/-! ## Theorems -/

/-- Whether a selection operation is a `selectAll`. -/
def SelOp.isSelectAll : SelOp → Bool
  | SelOp.selectAll _ => true
  | _ => false

/-- C2: filtering any non-empty space list with access type `all` and an
empty (or absent) query returns a permutation of the input: the sort step
may reorder but never adds or drops a record. -/
theorem filterSpaces_perm_all_empty_query (spaces : List Space)
    (filters : SpaceFilterOptions) (hne : spaces ≠ [])
    (hq : filters.query = none ∨ filters.query = some "")
    (ha : filters.accessType = some AccessFilter.all) :
    (filterSpaces spaces filters).Perm spaces := by
  have hq' : jsStrTruthy filters.query = false := by
    rcases hq with h | h <;> simp [h, jsStrTruthy]
  have ha' : ¬ (filters.accessType ≠ none ∧
      filters.accessType ≠ some AccessFilter.all) := by
    simp [ha]
  unfold filterSpaces
  rw [hq']
  simp only [if_neg ha', Bool.false_eq_true, if_false]
  cases hsb : filters.sortBy with
  | none => exact List.Perm.refl spaces
  | some sortBy => exact List.perm_insertionSort _ spaces

/-- C2 witness: the hypotheses and conclusion of
`filterSpaces_perm_all_empty_query` at a concrete two-space list. -/
theorem filterSpaces_perm_all_empty_query_witness :
    ([⟨"did:key:z1", some "Zebra", none⟩, ⟨"did:key:a2", some "Apple", none⟩] :
      List Space) ≠ []
    ∧ ((some "" : Option String) = none ∨ (some "" : Option String) = some "")
    ∧ (filterSpaces
        [⟨"did:key:z1", some "Zebra", none⟩, ⟨"did:key:a2", some "Apple", none⟩]
        ⟨some "", some AccessFilter.all, some SortKey.name, some SortDir.asc⟩).Perm
        [⟨"did:key:z1", some "Zebra", none⟩, ⟨"did:key:a2", some "Apple", none⟩] :=
  ⟨by decide, Or.inr rfl,
    filterSpaces_perm_all_empty_query _ _ (by decide) (Or.inr rfl) rfl⟩

/-- C1 counterexample: with `allowMultiSelect = false`, starting from the
empty selection, a `selectAllSpaces` of two spaces gives a selection of
size 2, and toggling a new id after selecting another does not replace the
existing selection. -/
theorem singleSelect_invariant_cex :
    (runSelOps false []
      [SelOp.selectAll [⟨"did:key:a", none, none⟩, ⟨"did:key:b", none, none⟩]]).length = 2
    ∧ runSelOps false []
        [SelOp.selectAll [⟨"did:key:a", none, none⟩],
         SelOp.toggle ⟨"did:key:b", none, none⟩]
        = [⟨"did:key:a", none, none⟩] := by decide

/-- C1 amended: in single-select mode `handleSpaceSelect` leaves the
internal selection unchanged (it only fires the external callback), so any
sequence of toggle and clear operations from the empty selection keeps the
selection empty — the size bound holds only because single-select toggling
never writes the selection, and it fails once `selectAllSpaces` (which
ignores the mode) is allowed. -/
theorem singleSelect_amended :
    (∀ (sel : List Space) (space : Space),
      handleSpaceSelect false sel space = sel)
    ∧ ∀ ops : List SelOp, (∀ op ∈ ops, op.isSelectAll = false) →
        runSelOps false [] ops = [] := by
  constructor
  · intro sel space
    rfl
  · intro ops
    induction ops with
    | nil => intro _; rfl
    | cons op ops ih =>
        intro h
        have h1 := h op (List.mem_cons_self op ops)
        have hstep : selStep false [] op = [] := by
          cases op with
          | toggle s => rfl
          | selectAll ss => simp [SelOp.isSelectAll] at h1
          | clear => rfl
        have : runSelOps false [] (op :: ops) = runSelOps false [] ops := by
          simp [runSelOps, List.foldl, hstep]
        rw [this]
        exact ih fun o ho => h o (List.mem_cons_of_mem op ho)

/-- C1 witness: the amended statement at a concrete toggle/clear/toggle
sequence. -/
theorem singleSelect_amended_witness :
    (∀ op ∈ [SelOp.toggle ⟨"did:key:a", none, none⟩, SelOp.clear,
             SelOp.toggle ⟨"did:key:b", none, none⟩], op.isSelectAll = false)
    ∧ runSelOps false []
        [SelOp.toggle ⟨"did:key:a", none, none⟩, SelOp.clear,
         SelOp.toggle ⟨"did:key:b", none, none⟩] = [] :=
  ⟨by decide, singleSelect_amended.2 _ (by decide)⟩

/-- C3 counterexample: in multi-select mode, toggling the first of two
selected spaces twice moves it to the end of the selection, so the state is
not restored in the same order. -/
theorem toggle_self_inverse_cex :
    handleSpaceSelect true
      (handleSpaceSelect true
        [⟨"did:key:a", some "A", none⟩, ⟨"did:key:b", some "B", none⟩]
        ⟨"did:key:a", some "A", none⟩)
      ⟨"did:key:a", some "A", none⟩
    ≠ [⟨"did:key:a", some "A", none⟩, ⟨"did:key:b", some "B", none⟩] := by decide

/-- Helper for the amended C3: removing the did-matching element and
re-appending the toggled space permutes a duplicate-free selection that
contains the space. -/
theorem selectSpace_filter_append_perm {sel : List Space} {s : Space}
    (hmem : (sel.any fun x => x.did = s.did) = true)
    (huniq : ∀ x ∈ sel, x.did = s.did → x = s)
    (hnd : (sel.map Space.did).Nodup) :
    ((sel.filter fun x => x.did ≠ s.did) ++ [s]).Perm sel := by
  induction sel with
  | nil => simp at hmem
  | cons x xs ih =>
      by_cases hx : x.did = s.did
      · have hxs : x = s := huniq x (List.mem_cons_self x xs) hx
        have hxsnot : ∀ y ∈ xs, y.did ≠ s.did := by
          intro y hy
          have hnotin : x.did ∉ xs.map Space.did := (List.nodup_cons.mp hnd).1
          intro hcontra
          exact hnotin (hx ▸ hcontra ▸ List.mem_map_of_mem Space.did hy)
        have hfilter : (x :: xs).filter (fun y => y.did ≠ s.did) = xs := by
          rw [List.filter_cons]
          simp only [hx, decide_not]
          simp only [decide_eq_true_eq] at *
          rw [if_neg (by simp [hx])]
          exact List.filter_eq_self.mpr fun y hy => by
            simpa using hxsnot y hy
        rw [hfilter, hxs]
        exact List.perm_append_singleton s xs
      · have hfilter : (x :: xs).filter (fun y => y.did ≠ s.did)
            = x :: xs.filter (fun y => y.did ≠ s.did) := by
          rw [List.filter_cons, if_pos (by simpa using hx)]
        rw [hfilter, List.cons_append]
        refine List.Perm.cons x (ih ?_ ?_ ?_)
        · rcases List.any_eq_true.mp hmem with ⟨y, hy, hyd⟩
          rcases List.mem_cons.mp hy with hyx | hyxs
          · exact absurd (by simpa [hyx] using hyd) hx
          · exact List.any_eq_true.mpr ⟨y, hyxs, hyd⟩
        · exact fun y hy => huniq y (List.mem_cons_of_mem x hy)
        · exact (List.nodup_cons.mp hnd).2

/-- C3 amended: double toggle is the identity in single-select mode (where
toggling never writes the selection) and in multi-select mode when the id
is not yet selected; when the id is selected in multi-select mode, double
toggle preserves the selected elements only up to reordering (the toggled
element moves to the end), provided the selection has duplicate-free dids
and stores the toggled space itself under that did. -/
theorem toggle_self_inverse_amended :
    (∀ (sel : List Space) (s : Space),
      handleSpaceSelect false (handleSpaceSelect false sel s) s = sel)
    ∧ (∀ (sel : List Space) (s : Space),
        (sel.any fun x => x.did = s.did) = false →
        handleSpaceSelect true (handleSpaceSelect true sel s) s = sel)
    ∧ (∀ (sel : List Space) (s : Space),
        (sel.any fun x => x.did = s.did) = true →
        (∀ x ∈ sel, x.did = s.did → x = s) →
        (sel.map Space.did).Nodup →
        (handleSpaceSelect true (handleSpaceSelect true sel s) s).Perm sel) := by
  refine ⟨fun sel s => rfl, ?_, ?_⟩
  · intro sel s habs
    have h1 : handleSpaceSelect true sel s = sel ++ [s] := by
      simp [handleSpaceSelect, selectSpace, habs]
    have hall : ∀ y ∈ sel, ¬ (y.did = s.did) := by
      intro y hy
      simpa using List.any_eq_false.mp habs y hy
    have h2 : ((sel ++ [s]).any fun x => x.did = s.did) = true := by
      refine List.any_eq_true.mpr ⟨s, List.mem_append_right sel (List.mem_singleton_self s), by simp⟩
    rw [h1]
    simp only [handleSpaceSelect, if_pos rfl, selectSpace, h2, if_pos]
    rw [List.filter_append]
    have hsel : sel.filter (fun y => y.did ≠ s.did) = sel :=
      List.filter_eq_self.mpr fun y hy => by simpa using hall y hy
    have hs : ([s].filter fun y => y.did ≠ s.did) = [] := by simp
    rw [hsel, hs, List.append_nil]
  · intro sel s hmem huniq hnd
    have h1 : handleSpaceSelect true sel s
        = sel.filter fun x => x.did ≠ s.did := by
      simp [handleSpaceSelect, selectSpace, hmem]
    have h2 : ((sel.filter fun x => x.did ≠ s.did).any
        fun x => x.did = s.did) = false := by
      refine List.any_eq_false.mpr ?_
      intro y hy
      have := (List.mem_filter.mp hy).2
      simpa using this
    rw [h1]
    simp only [handleSpaceSelect, if_pos rfl, selectSpace, h2]
    simp only [Bool.false_eq_true, if_false]
    exact selectSpace_filter_append_perm hmem huniq hnd

/-- C3 witness: the amended statement exercised at concrete selections for
all three conjuncts. -/
theorem toggle_self_inverse_amended_witness :
    (handleSpaceSelect false
      (handleSpaceSelect false [⟨"did:key:a", some "A", none⟩]
        ⟨"did:key:b", some "B", none⟩) ⟨"did:key:b", some "B", none⟩
      = [⟨"did:key:a", some "A", none⟩])
    ∧ (handleSpaceSelect true
        (handleSpaceSelect true [⟨"did:key:a", some "A", none⟩]
          ⟨"did:key:b", some "B", none⟩) ⟨"did:key:b", some "B", none⟩
        = [⟨"did:key:a", some "A", none⟩])
    ∧ (handleSpaceSelect true
        (handleSpaceSelect true
          [⟨"did:key:a", some "A", none⟩, ⟨"did:key:b", some "B", none⟩]
          ⟨"did:key:a", some "A", none⟩) ⟨"did:key:a", some "A", none⟩).Perm
        [⟨"did:key:a", some "A", none⟩, ⟨"did:key:b", some "B", none⟩] :=
  ⟨toggle_self_inverse_amended.1 _ _,
   toggle_self_inverse_amended.2.1 _ _ (by decide),
   toggle_self_inverse_amended.2.2 _ _ (by decide) (by decide) (by decide)⟩

/-- C4 counterexample: `validatePermissionForm` reads the current clock, so
the same form data validated at two different times yields different error
maps once the expiration lies between the two clock readings. -/
theorem validatePermissionForm_time_dependent_cex :
    validatePermissionForm ⟨"user@example.com", ["*"], some 100⟩ 0
      ≠ validatePermissionForm ⟨"user@example.com", ["*"], some 100⟩ 200 := by
  decide

/-- C4 amended: `validateSpaceName`, `validateSpaceCreatorForm`,
`validateFileUpload` and `validatePath` are pure functions of their input
alone; `validatePermissionForm` additionally reads the current clock, and
is independent of it exactly when the form has no expiration. -/
theorem validatePermissionForm_pure_without_expiration
    (formData : PermissionFormData) (now1 now2 : Nat)
    (hexp : formData.expiration = none) :
    validatePermissionForm formData now1 = validatePermissionForm formData now2 := by
  simp only [validatePermissionForm, hexp]

/-- C4 witness: time-independence at a concrete expiration-free form. -/
theorem validatePermissionForm_pure_without_expiration_witness :
    (PermissionFormData.expiration ⟨"a@b.c", ["*"], none⟩ = none)
    ∧ validatePermissionForm ⟨"a@b.c", ["*"], none⟩ 0
        = validatePermissionForm ⟨"a@b.c", ["*"], none⟩ 12345 :=
  ⟨rfl, validatePermissionForm_pure_without_expiration _ 0 12345 rfl⟩

/-- Reserved device-style names of the C9 claim (without `.` and `..`). -/
def reservedDeviceNames : List String :=
  ["CON", "PRN", "AUX", "NUL",
   "COM1", "COM2", "COM3", "COM4", "COM5", "COM6", "COM7", "COM8", "COM9",
   "LPT1", "LPT2", "LPT3", "LPT4", "LPT5", "LPT6", "LPT7", "LPT8", "LPT9"]

/-- The rejection condition of the C9 claim as stated (spec side): empty or
whitespace-only path, a segment equal to `.`, `..` or `~`, a segment equal
case-insensitively to a reserved device name, or length above 260. -/
def pathRejectClaim (path : String) : Bool :=
  let segs := (jsSplitOn path '/').filter fun part => part ≠ ""
  jsTrim path = "" ||
  (segs.any fun seg => seg = "." || seg = ".." || seg = "~") ||
  (segs.any fun seg => reservedDeviceNames.contains (jsToUpper seg)) ||
  decide (path.length > 260)

/-- The amended rejection condition (spec side): `..` and `~` are rejected
as substrings anywhere in the path, and the reserved-segment check uses the
code's reserved list (which also holds `.` and `..`). -/
def pathRejectAmended (path : String) : Bool :=
  jsTrim path = "" ||
  jsIncludes path ".." || jsIncludes path "~" ||
  (((jsSplitOn path '/').filter fun part => part ≠ "").any fun seg =>
    pathReservedNames.contains (jsToUpper seg)) ||
  decide (path.length > 260)

/-- C9 counterexample: `"a..b"` has no traversal segment, no reserved
segment, and admissible length, so the claim says it passes; the code
rejects it because it checks `..` as a substring. -/
theorem validatePath_claim_cex :
    (validatePath "a..b").path.isSome = true
    ∧ pathRejectClaim "a..b" = false := by decide

/-- C9 amended: `validatePath` reports a path error exactly for blank
paths, paths containing `..` or `~` anywhere, paths with a segment equal
case-insensitively to a reserved name (`.`, `..`, CON, PRN, AUX, NUL,
COM1–COM9, LPT1–LPT9), and paths longer than 260 characters. -/
theorem validatePath_isSome_iff_amended (path : String) :
    (validatePath path).path.isSome = pathRejectAmended path := by
  unfold validatePath pathRejectAmended
  by_cases h1 : jsTrim path = ""
  · simp [h1, ValidationErrors.empty]
  · simp only [if_neg h1]
    cases hf : ((jsSplitOn path '/').filter fun part => part ≠ "").find?
        (fun part => pathReservedNames.contains (jsToUpper part)) with
    | none =>
        have hany : (((jsSplitOn path '/').filter fun part => part ≠ "").any
            fun seg => pathReservedNames.contains (jsToUpper seg)) = false := by
          refine List.any_eq_false.mpr fun seg hseg => ?_
          simpa using List.find?_eq_none.mp hf seg hseg
        rw [hany]
        by_cases h2 : (jsIncludes path ".." || jsIncludes path "~") = true <;>
          by_cases h3 : path.length > 260 <;>
            simp [h1, h2, h3, ValidationErrors.empty]
    | some part =>
        have hp := List.find?_some hf
        have hany : (((jsSplitOn path '/').filter fun part => part ≠ "").any
            fun seg => pathReservedNames.contains (jsToUpper seg)) = true :=
          List.any_eq_true.mpr
            ⟨part, List.mem_of_find?_eq_some hf, by simpa using hp⟩
        rw [hany]
        by_cases h2 : (jsIncludes path ".." || jsIncludes path "~") = true <;>
          by_cases h3 : path.length > 260 <;>
            simp [h1, h2, h3, ValidationErrors.empty]

/-- C7 counterexample: an always-failing operation is attempted 4 times
(attempt indices 0–3), not at most 3 as the claim states. -/
theorem executeWithRetry_four_attempts_cex :
    (executeWithRetry fun _ => (Except.error "boom" : Except String Nat)).2.1 = 4
    ∧ ¬ (executeWithRetry fun _ => (Except.error "boom" : Except String Nat)).2.1 ≤ 3 := by
  decide

/-- C7 amended: `executeWithRetry` performs at most 4 attempts (one initial
try plus `maxRetries = 3` retries), sleeping `2 ^ attempt * 1000`
milliseconds (that is, `2 ^ attempt` seconds) after each failed attempt
except the last; it returns the result of the first successful attempt, and
after 4 failures it returns the last error. -/
theorem retryAux_ok {E A : Type} {f : Nat → Except E A} {attempt : Nat}
    {a : A} (h : f attempt = Except.ok a) (remaining : Nat) :
    retryAux f remaining attempt = (Except.ok a, attempt + 1, []) := by
  cases remaining <;> simp [retryAux, h]

theorem retryAux_error_zero {E A : Type} {f : Nat → Except E A}
    {attempt : Nat} {e : E} (h : f attempt = Except.error e) :
    retryAux f 0 attempt = (Except.error e, attempt + 1, []) := by
  simp [retryAux, h]

theorem retryAux_error_succ {E A : Type} {f : Nat → Except E A}
    {attempt : Nat} {e : E} (h : f attempt = Except.error e) (r : Nat) :
    retryAux f (r + 1) attempt
      = ((retryAux f r (attempt + 1)).1, (retryAux f r (attempt + 1)).2.1,
         (2 ^ attempt * 1000) :: (retryAux f r (attempt + 1)).2.2) := by
  rw [retryAux, h]

theorem retryAux_attempts_le {E A : Type} (f : Nat → Except E A)
    (remaining attempt : Nat) :
    (retryAux f remaining attempt).2.1 ≤ attempt + remaining + 1 := by
  induction remaining generalizing attempt with
  | zero =>
      cases hf : f attempt with
      | ok a => rw [retryAux_ok hf]
      | error e => rw [retryAux_error_zero hf]
  | succ r ih =>
      cases hf : f attempt with
      | ok a =>
          rw [retryAux_ok hf]; show attempt + 1 ≤ attempt + (r + 1) + 1; omega
      | error e =>
          rw [retryAux_error_succ hf]
          show (retryAux f r (attempt + 1)).2.1 ≤ attempt + (r + 1) + 1
          have := ih (attempt + 1)
          omega

theorem executeWithRetry_spec {E A : Type} (f : Nat → Except E A) :
    (executeWithRetry f).2.1 ≤ 4
    ∧ (∀ i, i ≤ 3 → (∀ j, j < i → (f j).isOk = false) → (f i).isOk = true →
        executeWithRetry f = (f i, i + 1, (List.range i).map fun k => 2 ^ k * 1000))
    ∧ ((∀ i, i ≤ 3 → (f i).isOk = false) →
        executeWithRetry f = (f 3, 4, [1000, 2000, 4000])) := by
  refine ⟨?_, ?_, ?_⟩
  · have h := retryAux_attempts_le f 3 0
    have h2 : executeWithRetry f = retryAux f 3 0 := rfl
    rw [h2]
    omega
  · intro i hi hprev hok
    interval_cases i
    · rcases hf0 : f 0 with e0 | a0
      · rw [hf0] at hok; simp [Except.isOk, Except.toBool] at hok
      · unfold executeWithRetry
        rw [retryAux_ok hf0]
        simp [hf0]
    · have hp0 := hprev 0 (by omega)
      rcases hf0 : f 0 with e0 | a0
      case ok => rw [hf0] at hp0; simp [Except.isOk, Except.toBool] at hp0
      rcases hf1 : f 1 with e1 | a1
      · rw [hf1] at hok; simp [Except.isOk, Except.toBool] at hok
      · unfold executeWithRetry
        rw [retryAux_error_succ hf0, retryAux_ok hf1]
        simp [hf1, List.range_succ]
    · have hp0 := hprev 0 (by omega)
      have hp1 := hprev 1 (by omega)
      rcases hf0 : f 0 with e0 | a0
      case ok => rw [hf0] at hp0; simp [Except.isOk, Except.toBool] at hp0
      rcases hf1 : f 1 with e1 | a1
      case ok => rw [hf1] at hp1; simp [Except.isOk, Except.toBool] at hp1
      rcases hf2 : f 2 with e2 | a2
      · rw [hf2] at hok; simp [Except.isOk, Except.toBool] at hok
      · unfold executeWithRetry
        rw [retryAux_error_succ hf0, retryAux_error_succ hf1,
          retryAux_ok hf2]
        simp [hf2, List.range_succ]
    · have hp0 := hprev 0 (by omega)
      have hp1 := hprev 1 (by omega)
      have hp2 := hprev 2 (by omega)
      rcases hf0 : f 0 with e0 | a0
      case ok => rw [hf0] at hp0; simp [Except.isOk, Except.toBool] at hp0
      rcases hf1 : f 1 with e1 | a1
      case ok => rw [hf1] at hp1; simp [Except.isOk, Except.toBool] at hp1
      rcases hf2 : f 2 with e2 | a2
      case ok => rw [hf2] at hp2; simp [Except.isOk, Except.toBool] at hp2
      rcases hf3 : f 3 with e3 | a3
      · rw [hf3] at hok; simp [Except.isOk, Except.toBool] at hok
      · unfold executeWithRetry
        rw [retryAux_error_succ hf0, retryAux_error_succ hf1,
          retryAux_error_succ hf2, retryAux_ok hf3]
        simp [hf3, List.range_succ]
  · intro hall
    have ha0 := hall 0 (by omega)
    have ha1 := hall 1 (by omega)
    have ha2 := hall 2 (by omega)
    have ha3 := hall 3 (by omega)
    rcases hf0 : f 0 with e0 | a0
    case ok => rw [hf0] at ha0; simp [Except.isOk, Except.toBool] at ha0
    rcases hf1 : f 1 with e1 | a1
    case ok => rw [hf1] at ha1; simp [Except.isOk, Except.toBool] at ha1
    rcases hf2 : f 2 with e2 | a2
    case ok => rw [hf2] at ha2; simp [Except.isOk, Except.toBool] at ha2
    rcases hf3 : f 3 with e3 | a3
    case ok => rw [hf3] at ha3; simp [Except.isOk, Except.toBool] at ha3
    unfold executeWithRetry
    rw [retryAux_error_succ hf0, retryAux_error_succ hf1,
      retryAux_error_succ hf2, retryAux_error_zero hf3]
    simp [hf3]

/-- C7 witness: the amended statement at an operation that fails twice and
succeeds on the third attempt. -/
theorem executeWithRetry_spec_witness :
    (2 ≤ 3)
    ∧ (∀ j, j < 2 →
        ((fun i => if i = 2 then (Except.ok 7 : Except String Nat)
          else Except.error "x") j).isOk = false)
    ∧ ((fun i => if i = 2 then (Except.ok 7 : Except String Nat)
        else Except.error "x") 2).isOk = true
    ∧ executeWithRetry
        (fun i => if i = 2 then (Except.ok 7 : Except String Nat)
          else Except.error "x")
        = (Except.ok 7, 3, [1000, 2000]) := by
  refine ⟨by omega, ?_, by decide, ?_⟩
  · intro j hj
    interval_cases j <;> decide
  · have h := (executeWithRetry_spec
      (fun i => if i = 2 then (Except.ok 7 : Except String Nat)
        else Except.error "x")).2.1 2 (by omega)
      (by intro j hj; interval_cases j <;> decide) (by decide)
    simpa [List.range_succ] using h

/-- Reading a valid reference is unchanged by an allocation. -/
theorem ArrHeap.alloc_read_lt {h : ArrHeap} {r : Nat}
    (hr : r < h.arrays.length) (xs : List Space) :
    ((h.alloc xs).1).read r = h.read r := by
  simp [ArrHeap.alloc, ArrHeap.read, List.getD, List.getElem?_append_left hr]

/-- Reading the reference returned by an allocation gives its contents. -/
theorem ArrHeap.alloc_read_self (h : ArrHeap) (xs : List Space) :
    ((h.alloc xs).1).read (h.alloc xs).2 = xs := by
  simp [ArrHeap.alloc, ArrHeap.read, List.getD,
    List.getElem?_append_right (Nat.le_refl _)]

/-- Reading a reference is unchanged by an in-place write elsewhere. -/
theorem ArrHeap.write_read_ne {h : ArrHeap} {r r' : Nat} (hne : r' ≠ r)
    (xs : List Space) :
    ((h.write r' xs)).read r = h.read r := by
  simp [ArrHeap.write, ArrHeap.read, List.getD, List.getElem?_set_ne hne]

/-- Reading a valid reference after writing it in place gives the new
contents. -/
theorem ArrHeap.write_read_self {h : ArrHeap} {r : Nat}
    (hr : r < h.arrays.length) (xs : List Space) :
    ((h.write r xs)).read r = xs := by
  simp [ArrHeap.write, ArrHeap.read, List.getD, List.getElem?_set_self, hr]

/-- C8: `filterSpaces` never mutates its input: for a valid input reference,
the call leaves the input array unchanged, returns a reference distinct
from the input, and the returned array holds the pure `filterSpaces`
result. -/
theorem filterSpacesHeap_frame (h : ArrHeap) (spacesRef : Nat)
    (filters : SpaceFilterOptions) (hr : spacesRef < h.arrays.length) :
    ((filterSpacesHeap h spacesRef filters).1).read spacesRef = h.read spacesRef
    ∧ (filterSpacesHeap h spacesRef filters).2 ≠ spacesRef
    ∧ ((filterSpacesHeap h spacesRef filters).1).read
        (filterSpacesHeap h spacesRef filters).2
      = filterSpaces (h.read spacesRef) filters := by
  by_cases hq : jsStrTruthy filters.query = true <;>
    by_cases hacc : (filters.accessType ≠ none
      ∧ filters.accessType ≠ some AccessFilter.all) <;>
    cases hsb : filters.sortBy <;>
      refine ⟨?_, ?_, ?_⟩ <;>
        simp [filterSpacesHeap, filterSpaces, hq, hacc, hsb, ArrHeap.alloc,
          ArrHeap.write, ArrHeap.read, List.getD,
          List.getElem?_append_left, List.getElem?_append_right,
          List.getElem?_set_ne, List.getElem?_set_self, hr,
          List.getElem_append_right, Nat.add_sub_cancel_left,
          Nat.le_add_right] <;>
        omega

/-- C8 witness: the frame property at a concrete one-array heap. -/
theorem filterSpacesHeap_frame_witness :
    0 < (ArrHeap.mk [[⟨"did:key:a", some "A", none⟩]]).arrays.length
    ∧ (((filterSpacesHeap (ArrHeap.mk [[⟨"did:key:a", some "A", none⟩]]) 0
          ⟨none, some AccessFilter.all, some SortKey.name, some SortDir.asc⟩).1).read 0
        = (ArrHeap.mk [[⟨"did:key:a", some "A", none⟩]]).read 0
      ∧ (filterSpacesHeap (ArrHeap.mk [[⟨"did:key:a", some "A", none⟩]]) 0
          ⟨none, some AccessFilter.all, some SortKey.name, some SortDir.asc⟩).2 ≠ 0
      ∧ ((filterSpacesHeap (ArrHeap.mk [[⟨"did:key:a", some "A", none⟩]]) 0
          ⟨none, some AccessFilter.all, some SortKey.name, some SortDir.asc⟩).1).read
          (filterSpacesHeap (ArrHeap.mk [[⟨"did:key:a", some "A", none⟩]]) 0
            ⟨none, some AccessFilter.all, some SortKey.name, some SortDir.asc⟩).2
        = filterSpaces ((ArrHeap.mk [[⟨"did:key:a", some "A", none⟩]]).read 0)
            ⟨none, some AccessFilter.all, some SortKey.name, some SortDir.asc⟩) :=
  ⟨by decide, filterSpacesHeap_frame _ 0 _ (by decide)⟩

/-- Helper for C6: the cooldown gate of the implementation agrees with the
spec-side description once an invocation at `lastFire` has opened a
cooldown ending at `lastFire + limit`. -/
theorem throttleRun_eq_spec_some {α : Type} (limit : Nat)
    (calls : List (Nat × α)) (lastFire : Nat) :
    throttleRun limit (lastFire + limit) calls
      = throttleSpec limit (some lastFire) calls := by
  induction calls generalizing lastFire with
  | nil => rfl
  | cons c rest ih =>
      rcases c with ⟨t, a⟩
      by_cases hgate : lastFire + limit ≤ t
      · rw [throttleRun, throttleSpec, if_pos hgate, if_neg (by omega)]
        rw [ih t]
      · rw [throttleRun, throttleSpec, if_neg hgate, if_pos (by omega)]
        exact ih lastFire

/-- Helper for C6: every invocation of the throttled wrapper is one of the
calls (same time, same arguments). -/
theorem throttleRun_sublist {α : Type} (limit : Nat) (readyAt : Nat)
    (calls : List (Nat × α)) :
    (throttleRun limit readyAt calls).Sublist calls := by
  induction calls generalizing readyAt with
  | nil => simp [throttleRun]
  | cons c rest ih =>
      rcases c with ⟨t, a⟩
      by_cases hgate : readyAt ≤ t
      · rw [throttleRun, if_pos hgate]
        exact List.Sublist.cons₂ _ (ih (t + limit))
      · rw [throttleRun, if_neg hgate]
        exact List.Sublist.cons _ (ih readyAt)

/-- Helper for C6: invocations respect the cooldown (`readyAt` bounds the
first invocation, and consecutive invocations are at least `limit` apart). -/
theorem throttleRun_cooldown {α : Type} (limit : Nat) (readyAt : Nat)
    (calls : List (Nat × α)) :
    (∀ x ∈ (throttleRun limit readyAt calls).head?, readyAt ≤ x.1)
    ∧ (throttleRun limit readyAt calls).Chain'
        fun x y => x.1 + limit ≤ y.1 := by
  induction calls generalizing readyAt with
  | nil => simp [throttleRun]
  | cons c rest ih =>
      rcases c with ⟨t, a⟩
      by_cases hgate : readyAt ≤ t
      · rw [throttleRun, if_pos hgate]
        refine ⟨by simpa using hgate, ?_⟩
        rw [List.chain'_cons']
        exact ⟨(ih (t + limit)).1, (ih (t + limit)).2⟩
      · rw [throttleRun, if_neg hgate]
        exact ih readyAt

/-- C6: the throttled wrapper fires on the leading edge. The implementation
trace equals the spec-side description (first call fires immediately and
opens a `limit` cooldown, calls during the cooldown are dropped entirely,
the first call at or after its end fires and restarts it); moreover every
invocation is one of the calls with its own time and arguments, the first
call is always invoked, and consecutive invocations are at least `limit`
apart. -/
theorem throttle_leading_edge {α : Type} (limit : Nat)
    (calls : List (Nat × α)) :
    throttleRun limit 0 calls = throttleSpec limit none calls
    ∧ (throttleRun limit 0 calls).Sublist calls
    ∧ (throttleRun limit 0 calls).head? = calls.head?
    ∧ (throttleRun limit 0 calls).Chain' fun x y => x.1 + limit ≤ y.1 := by
  refine ⟨?_, throttleRun_sublist limit 0 calls, ?_,
    (throttleRun_cooldown limit 0 calls).2⟩
  · cases calls with
    | nil => rfl
    | cons c rest =>
        rcases c with ⟨t, a⟩
        rw [throttleRun, if_pos (Nat.zero_le t), throttleSpec]
        rw [throttleRun_eq_spec_some limit rest t]
  · cases calls with
    | nil => rfl
    | cons c rest =>
        rcases c with ⟨t, a⟩
        rw [throttleRun, if_pos (Nat.zero_le t)]
        rfl

/-- Boolean gap condition between two consecutive bursts: the burst ending
at `x` and the burst starting at `y` are separated by at least `wait`. -/
def burstGapB (wait : Nat) (b c : List (Nat × α)) : Bool :=
  match b.getLast?, c.head? with
  | some x, some y => decide (x.1 + wait ≤ y.1)
  | _, _ => true

/-- Helper for C5: a nonempty call list has at least one burst. -/
theorem burstsOf_ne_nil {α : Type} (wait : Nat) (calls : List (Nat × α))
    (h : calls ≠ []) : burstsOf wait calls ≠ [] := by
  rcases calls with _ | ⟨x, _ | ⟨y, rest⟩⟩
  · exact absurd rfl h
  · simp [burstsOf]
  · simp only [burstsOf]
    split <;> simp

/-- Helper for C5: every burst is nonempty. -/
theorem burstsOf_mem_ne_nil {α : Type} (wait : Nat) :
    ∀ (calls : List (Nat × α)), ∀ b ∈ burstsOf wait calls, b ≠ []
  | [] => by simp [burstsOf]
  | [x] => by simp [burstsOf]
  | x :: y :: rest => by
      have ih := burstsOf_mem_ne_nil wait (y :: rest)
      intro b hb
      simp only [burstsOf] at hb
      cases hbs : burstsOf wait (y :: rest) with
      | nil => exact absurd hbs (burstsOf_ne_nil wait _ (by simp))
      | cons c cs =>
          rw [hbs] at hb
          simp only [List.headD_cons, List.tail_cons] at hb
          split at hb
          · rcases List.mem_cons.mp hb with rfl | h1
            · simp
            · exact ih _ (by rw [hbs]; exact List.mem_cons_of_mem _ h1)
          · rcases List.mem_cons.mp hb with rfl | h1
            · simp
            · exact ih _ (by rw [hbs]; exact h1)

/-- Helper for C5: the bursts concatenate back to the call list (each call
belongs to exactly one burst, in order). -/
theorem burstsOf_flatten {α : Type} (wait : Nat) :
    ∀ (calls : List (Nat × α)), (burstsOf wait calls).flatten = calls
  | [] => by simp [burstsOf]
  | [x] => by simp [burstsOf]
  | x :: y :: rest => by
      have ih := burstsOf_flatten wait (y :: rest)
      simp only [burstsOf]
      cases hbs : burstsOf wait (y :: rest) with
      | nil => exact absurd hbs (burstsOf_ne_nil wait _ (by simp))
      | cons c cs =>
          rw [hbs] at ih
          have ih' : c ++ cs.flatten = y :: rest := by
            simpa [List.flatten_cons] using ih
          simp only [List.headD_cons, List.tail_cons]
          split
          · simp [List.flatten_cons, List.cons_append, ih']
          · simp [List.flatten_cons, ih']

/-- Helper for C5: the first burst starts with the first call. -/
theorem burstsOf_head {α : Type} (wait : Nat) (calls : List (Nat × α))
    (c : List (Nat × α)) (cs : List (List (Nat × α)))
    (h : burstsOf wait calls = c :: cs) : c.head? = calls.head? := by
  have hj := burstsOf_flatten wait calls
  rw [h] at hj
  have hc : c ≠ [] :=
    burstsOf_mem_ne_nil wait calls c (by rw [h]; exact List.mem_cons_self c cs)
  rcases c with _ | ⟨z, zs⟩
  · exact absurd rfl hc
  · rw [← hj]; simp [List.flatten_cons]

/-- Helper for C5: inside a burst, each call arrives strictly within `wait`
of the previous one. -/
theorem burstsOf_within {α : Type} (wait : Nat) :
    ∀ (calls : List (Nat × α)), ∀ b ∈ burstsOf wait calls,
      b.Chain' fun u v => v.1 < u.1 + wait
  | [] => by simp [burstsOf]
  | [x] => by simp [burstsOf]
  | x :: y :: rest => by
      have ih := burstsOf_within wait (y :: rest)
      intro b hb
      simp only [burstsOf] at hb
      cases hbs : burstsOf wait (y :: rest) with
      | nil => exact absurd hbs (burstsOf_ne_nil wait _ (by simp))
      | cons c cs =>
          rw [hbs] at hb
          simp only [List.headD_cons, List.tail_cons] at hb
          by_cases hlt : y.1 < x.1 + wait
          · rw [if_pos hlt] at hb
            rcases List.mem_cons.mp hb with rfl | h1
            · have hch := ih c (by rw [hbs]; exact List.mem_cons_self c cs)
              have hhead : c.head? = some y := by
                simpa using burstsOf_head wait (y :: rest) c cs hbs
              rw [List.chain'_cons']
              refine ⟨fun z hz => ?_, hch⟩
              rw [hhead] at hz
              simp only [Option.mem_some_iff] at hz
              subst hz
              exact hlt
            · exact ih b (by rw [hbs]; exact List.mem_cons_of_mem _ h1)
          · rw [if_neg hlt] at hb
            rcases List.mem_cons.mp hb with rfl | h1
            · simp
            · exact ih b (by rw [hbs]; exact h1)

/-- Helper for C5: consecutive bursts are separated by at least `wait`
between the last call of one and the first call of the next. -/
theorem burstsOf_between {α : Type} (wait : Nat) :
    ∀ (calls : List (Nat × α)),
      (burstsOf wait calls).Chain' fun b c => burstGapB wait b c = true
  | [] => by simp [burstsOf]
  | [x] => by simp [burstsOf]
  | x :: y :: rest => by
      have ih := burstsOf_between wait (y :: rest)
      simp only [burstsOf]
      cases hbs : burstsOf wait (y :: rest) with
      | nil => exact absurd hbs (burstsOf_ne_nil wait _ (by simp))
      | cons c cs =>
          rw [hbs] at ih
          simp only [List.headD_cons, List.tail_cons]
          by_cases hlt : y.1 < x.1 + wait
          · rw [if_pos hlt]
            have hc : c ≠ [] :=
              burstsOf_mem_ne_nil wait (y :: rest) c
                (by rw [hbs]; exact List.mem_cons_self c cs)
            rw [List.chain'_cons'] at ih ⊢
            refine ⟨fun d hd => ?_, ih.2⟩
            have hgap := ih.1 d hd
            rcases c with _ | ⟨z, zs⟩
            · exact absurd rfl hc
            · simpa [burstGapB, List.getLast?_cons_cons] using hgap
          · rw [if_neg hlt]
            rw [List.chain'_cons']
            refine ⟨fun d hd => ?_, ih⟩
            have hd' : c = d := by simpa using hd
            subst hd'
            have hhead : c.head? = some y := by
              simpa using burstsOf_head wait (y :: rest) c cs hbs
            simp only [burstGapB, List.getLast?_singleton, hhead,
              decide_eq_true_eq]
            omega

/-- Helper for C5: the debounced trace fires exactly the last call of each
burst, `wait` after it, with that call's arguments. -/
theorem debounceRun_eq_bursts {α : Type} (wait : Nat) :
    ∀ (calls : List (Nat × α)),
      debounceRun wait calls
        = (burstsOf wait calls).filterMap
            fun b => b.getLast?.map fun la => (la.1 + wait, la.2)
  | [] => by simp [debounceRun, burstsOf]
  | [(t, a)] => by simp [debounceRun, burstsOf]
  | (t, a) :: (t2, b) :: rest => by
      have ih := debounceRun_eq_bursts wait ((t2, b) :: rest)
      rw [debounceRun]
      simp only [burstsOf]
      cases hbs : burstsOf wait ((t2, b) :: rest) with
      | nil => exact absurd hbs (burstsOf_ne_nil wait _ (by simp))
      | cons c cs =>
          rw [hbs] at ih
          have hc : c ≠ [] :=
            burstsOf_mem_ne_nil wait _ c
              (by rw [hbs]; exact List.mem_cons_self c cs)
          simp only [List.headD_cons, List.tail_cons]
          by_cases hlt : t2 < t + wait
          · rw [if_pos hlt, if_pos hlt, ih]
            rcases c with _ | ⟨z, zs⟩
            · exact absurd rfl hc
            · simp [List.filterMap_cons, List.getLast?_cons_cons]
          · rw [if_neg hlt, if_neg hlt, ih]
            simp [List.filterMap_cons]

/-- Helper for C5: one invocation per burst (the fired trace has exactly as
many entries as there are bursts). -/
theorem filterMap_getLast_length {α : Type} (wait : Nat) :
    ∀ (L : List (List (Nat × α))), (∀ b ∈ L, b ≠ []) →
      (L.filterMap fun b => b.getLast?.map fun la => (la.1 + wait, la.2)).length
        = L.length := by
  intro L
  induction L with
  | nil => simp
  | cons c cs ih =>
      intro hL
      have hc : c ≠ [] := hL c (List.mem_cons_self c cs)
      obtain ⟨la, hla⟩ :=
        Option.isSome_iff_exists.mp (List.getLast?_isSome.mpr hc)
      simp [List.filterMap_cons, hla,
        ih fun b hb => hL b (List.mem_cons_of_mem _ hb)]

/-- C5: the debounced wrapper fires exactly once per maximal burst of
calls, `wait` after the burst's last call, with that call's arguments: the
trace equals the per-burst firing list, one invocation per burst, where the
bursts partition the calls in order, consecutive calls inside a burst are
strictly within `wait` of each other, and consecutive bursts are separated
by at least `wait`. -/
theorem debounce_once_per_burst {α : Type} (wait : Nat)
    (calls : List (Nat × α)) :
    debounceRun wait calls
      = (burstsOf wait calls).filterMap
          (fun b => b.getLast?.map fun la => (la.1 + wait, la.2))
    ∧ (debounceRun wait calls).length = (burstsOf wait calls).length
    ∧ (burstsOf wait calls).flatten = calls
    ∧ (∀ b ∈ burstsOf wait calls, b ≠ []
        ∧ b.Chain' fun u v => v.1 < u.1 + wait)
    ∧ (burstsOf wait calls).Chain' fun b c => burstGapB wait b c = true := by
  refine ⟨debounceRun_eq_bursts wait calls, ?_, burstsOf_flatten wait calls,
    fun b hb => ⟨burstsOf_mem_ne_nil wait calls b hb,
      burstsOf_within wait calls b hb⟩,
    burstsOf_between wait calls⟩
  rw [debounceRun_eq_bursts wait calls]
  exact filterMap_getLast_length wait _ (burstsOf_mem_ne_nil wait calls)

/-- Helper for C10: ordered insertion depends on the relation only through
its values on the inserted element and the list. -/
theorem orderedInsert_congr {α : Type} {r s : α → α → Prop}
    [DecidableRel r] [DecidableRel s] (a : α) :
    ∀ (l : List α), (∀ b ∈ l, (r a b ↔ s a b)) →
      l.orderedInsert r a = l.orderedInsert s a
  | [] => by intro _; simp
  | b :: l => by
      intro h
      simp only [List.orderedInsert]
      by_cases hr : r a b
      · rw [if_pos hr, if_pos ((h b (List.mem_cons_self b l)).mp hr)]
      · rw [if_neg hr, if_neg fun hs => hr ((h b (List.mem_cons_self b l)).mpr hs)]
        rw [orderedInsert_congr a l fun c hc => h c (List.mem_cons_of_mem _ hc)]

/-- Helper for C10: the stable insertion sort depends on the relation only
through its values on list elements. -/
theorem insertionSort_congr {α : Type} {r s : α → α → Prop}
    [DecidableRel r] [DecidableRel s] :
    ∀ (l : List α), (∀ a ∈ l, ∀ b ∈ l, (r a b ↔ s a b)) →
      l.insertionSort r = l.insertionSort s
  | [] => by intro _; simp
  | a :: l => by
      intro h
      simp only [List.insertionSort]
      rw [insertionSort_congr l fun x hx y hy =>
        h x (List.mem_cons_of_mem _ hx) y (List.mem_cons_of_mem _ hy)]
      apply orderedInsert_congr
      intro b hb
      have hbl : b ∈ l := (List.mem_insertionSort s).mp hb
      exact h a (List.mem_cons_self a l) b (List.mem_cons_of_mem _ hbl)

/-- Helper for C10: when the name is present and nonempty, both sort keys
are the lowercased name (`shortenDID` never enters). -/
theorem nameKey_eq_of_name {s : Space} (h : jsStrTruthy s.name = true) :
    filterSpacesNameKey s = useSpaceSearchNameKey s := by
  rcases hs : s.name with _ | n
  · rw [hs] at h; simp [jsStrTruthy] at h
  · rw [hs] at h
    simp only [jsStrTruthy, decide_eq_true_eq] at h
    simp [filterSpacesNameKey, useSpaceSearchNameKey, jsStrOr, hs, h]

/-- Helper for C10: the two comparators agree on spaces with truthy names. -/
theorem spaceCmp_iff_of_names {a b : Space} (ha : jsStrTruthy a.name = true)
    (hb : jsStrTruthy b.name = true) (sb : SortKey) (so : SortDir) :
    (filterSpacesCmp sb (some so) a b ≤ 0 ↔ useSpaceSearchCmp sb so a b ≤ 0) := by
  cases sb <;>
    simp [filterSpacesCmp, useSpaceSearchCmp, nameKey_eq_of_name ha,
      nameKey_eq_of_name hb]

/-- C10 counterexample: two spaces without names whose dids are longer than
19 characters sort differently — `filterSpaces` compares the shortened
dids, the inline `useSpaceSearch` sort compares the full dids. -/
theorem useSpaceSearch_filterSpaces_cex :
    useSpaceSearchFiltered
        [⟨"aaaaaaaazzzzbbbbbbbb", none, none⟩,
         ⟨"aaaaaaaabzzzcccccccc", none, none⟩]
        "" AccessFilter.all SortKey.name SortDir.asc
      ≠ filterSpaces
        [⟨"aaaaaaaazzzzbbbbbbbb", none, none⟩,
         ⟨"aaaaaaaabzzzcccccccc", none, none⟩]
        ⟨some "", some AccessFilter.all, some SortKey.name, some SortDir.asc⟩ := by
  decide

/-- C10 amended: the inline `useSpaceSearch` filtering/sorting and the
standalone `filterSpaces` agree for every query, access type, sort key and
sort order, provided every space has a present, nonempty name (the two
differ only in the name-sort fallback for unnamed spaces, where
`filterSpaces` shortens dids longer than 19 characters). -/
theorem useSpaceSearch_refines_filterSpaces (spaces : List Space)
    (q : String) (acc : AccessFilter) (sb : SortKey) (so : SortDir)
    (hnames : ∀ s ∈ spaces, jsStrTruthy s.name = true) :
    useSpaceSearchFiltered spaces q acc sb so
      = filterSpaces spaces ⟨some q, some acc, some sb, some so⟩ := by
  have hcong : ∀ (L : List Space), (∀ a ∈ L, a ∈ spaces) →
      (L.insertionSort fun a b => useSpaceSearchCmp sb so a b ≤ 0)
        = L.insertionSort fun a b => filterSpacesCmp sb (some so) a b ≤ 0 := by
    intro L hL
    apply insertionSort_congr
    intro a ha b hb
    exact (spaceCmp_iff_of_names (hnames a (hL a ha)) (hnames b (hL b hb))
      sb so).symm
  unfold useSpaceSearchFiltered filterSpaces
  by_cases hq : q = "" <;> by_cases hacc : acc = AccessFilter.all <;>
    simp only [hq, hacc, jsStrTruthy, Option.getD_some, ne_eq,
      decide_not, decide_eq_true_eq, not_true_eq_false, not_false_eq_true,
      if_true, if_false, Bool.not_false, Bool.not_true, Option.some.injEq,
      reduceCtorEq, and_true, and_false, not_and, if_neg, if_pos] <;>
    first
      | exact hcong spaces fun a ha => ha
      | exact hcong _ fun a ha => (List.mem_filter.mp ha).1
      | exact hcong _ fun a ha =>
          (List.mem_filter.mp (List.mem_filter.mp ha).1).1

/-- C10 witness: the amended equivalence at two named spaces with a query. -/
theorem useSpaceSearch_refines_filterSpaces_witness :
    (∀ s ∈ ([⟨"did:key:z1", some "Zebra", none⟩,
             ⟨"did:key:a2", some "Apple", none⟩] : List Space),
      jsStrTruthy s.name = true)
    ∧ useSpaceSearchFiltered
        [⟨"did:key:z1", some "Zebra", none⟩, ⟨"did:key:a2", some "Apple", none⟩]
        "e" AccessFilter.all SortKey.name SortDir.asc
      = filterSpaces
        [⟨"did:key:z1", some "Zebra", none⟩, ⟨"did:key:a2", some "Apple", none⟩]
        ⟨some "e", some AccessFilter.all, some SortKey.name, some SortDir.asc⟩ :=
  ⟨by decide, useSpaceSearch_refines_filterSpaces _ _ _ _ _ (by decide)⟩

/-- C5 witness: the spec's example — calls at 0, 50 and 100 ms with a
100 ms wait fire exactly once, at 200 ms, with the last call's argument. -/
theorem debounce_once_per_burst_witness :
    debounceRun 100 [(0, "a"), (50, "b"), (100, "c")] = [(200, "c")] := by
  rw [(debounce_once_per_burst 100 [(0, "a"), (50, "b"), (100, "c")]).1]
  decide

/-- C6 witness: the spec's example — calls at 0, 10, 20 and 150 ms with a
100 ms limit fire at 0 ms and 150 ms; the calls at 10 and 20 are dropped. -/
theorem throttle_leading_edge_witness :
    throttleRun 100 0 [(0, "a"), (10, "b"), (20, "c"), (150, "d")]
      = throttleSpec 100 none [(0, "a"), (10, "b"), (20, "c"), (150, "d")]
    ∧ throttleRun 100 0 [(0, "a"), (10, "b"), (20, "c"), (150, "d")]
      = [(0, "a"), (150, "d")] :=
  ⟨(throttle_leading_edge 100 [(0, "a"), (10, "b"), (20, "c"), (150, "d")]).1,
   by decide⟩
